import Mathlib

/-!
Verification model of the event-system repository.

The repository contains two parallel generations of the same library:

* `event_system` (snake_case): `include/event_system/internal/Dispatcher.hpp`,
  `EventSystem.hpp`;
* `NEventSystem` (T-prefixed): `TDispatcher` and `TEventSystem`.

The bus layer (`EventSystem` / `TEventSystem`) is identical in both
generations.  The dispatchers differ in two load-bearing places:

* `NEventSystem::NInternal::TDispatcher::Dispatch` claims a one-shot slot
  with a compare-and-set on `Active` *before* invoking the callback and
  wraps the iteration in `try`/`catch` that runs `Cleanup` before
  rethrowing;
* `event_system::internal::Dispatcher::dispatch` reads `active`, invokes
  the callback, and only *afterwards* stores `active = false` for one-shot
  slots; it has no `try`/`catch`.

Both variants are embedded below; `Variant.td` is the `TDispatcher`
semantics and `Variant.es` the `event_system` semantics.

Single-threaded executions (including re-entrant publish / subscribe /
unsubscribe from inside handlers) are modelled by a small-step machine.
Handler callbacks are programs in a small command language, referenced by
index into a fixed program table.  The atomic `Active` flag of a slot is
externalised into the set `Sys.dead` of deactivated handler ids: a slot is
active iff its id is not in `dead`.  This is faithful because slots are
shared (by `shared_ptr`) between the dispatcher list and delivery
snapshots, the bus never issues the same id twice, and `Active` only ever
transitions from true to false.
-/

namespace EventSys

/-- One registration: `TDispatcher::TSlot` / `Dispatcher::Slot`.
Priorities carry the integer values of the C++ enum:
Low = 0, Normal = 1, High = 2 (identical in both generations).
`prog` is the index of the callback's program in the program table. -/
structure Slot where
  id : Nat
  prio : Nat
  prog : Nat
  oneShot : Bool
deriving DecidableEq, Repr

/-- `a` may stay in front of `b` after the dispatcher's stable sort: the
C++ comparator is `a.Priority > b.Priority`, so the sorted order is
priority-descending and `a` need not move past `b` iff `b.prio ≤ a.prio`. -/
def slotGE (a b : Slot) : Prop := b.prio ≤ a.prio

instance : DecidableRel slotGE := fun _ _ => Nat.decLe _ _

/-- `std::stable_sort` on the slot vector (`TDispatcher::Subscribe`),
modelled by insertion sort, which is also stable; a stable sort's output is
determined by the input and comparator, so the two agree extensionally. -/
def sortSlots (l : List Slot) : List Slot := l.insertionSort slotGE

/-- First value bound to key `k` in an association list
(`unordered_map::find`). -/
def lookupA {α : Type} (m : List (Nat × α)) (k : Nat) : Option α :=
  (m.find? (fun e => e.1 == k)).map (·.2)

/-- Replace the value bound to key `k` (update of an existing
`unordered_map` entry; keys are unique there, so rewriting every matching
entry is the same operation). -/
def setA {α : Type} : List (Nat × α) → Nat → α → List (Nat × α)
  | [], _, _ => []
  | e :: rest, k, v =>
    if e.1 == k then (k, v) :: setA rest k v else e :: setA rest k v

/-- Erase the entry of key `k` (`unordered_map::erase` of a found
iterator). -/
def eraseA {α : Type} : List (Nat × α) → Nat → List (Nat × α)
  | [], _ => []
  | e :: rest, k => if e.1 == k then rest else e :: eraseA rest k

/-- State of one bus (`EventSystem` / `TEventSystem`) together with the
externalised `Active` flags of all slots it ever created:
`disp` is `dispatchers_` (type tag → slot list), `handlerTypes` is
`handler_types_` (handler id → type tag), `nextId` is `next_id_`
(initialised to 1), and `dead` is the set of handler ids whose atomic
`Active` flag has been cleared. -/
structure Sys where
  disp : List (Nat × List Slot)
  handlerTypes : List (Nat × Nat)
  nextId : Nat
  dead : List Nat
deriving DecidableEq, Repr

/-- A freshly constructed bus: empty maps, `next_id_{1}`. -/
def initSys : Sys := ⟨[], [], 1, []⟩

/-- Slot list of the dispatcher for `ty` (empty if absent). -/
def slotsOf (sys : Sys) (ty : Nat) : List Slot :=
  (lookupA sys.disp ty).getD []

/-- `TDispatcher::CleanupUnlocked` / `cleanupUnlocked`: erase from the slot
list every slot whose `Active` flag is false. -/
def cleanupD (sys : Sys) (ty : Nat) : Sys :=
  { sys with
    disp := setA sys.disp ty
      ((slotsOf sys ty).filter (fun s => !sys.dead.contains s.id)) }

/-- `TDispatcher::Remove` / `Dispatcher::remove` (identical logic in both
generations): look for the slot with this id; if absent return `false`;
otherwise store `Active := false`, excise inactive slots, return `true`.
Returns (result, new slot list, new dead set). -/
def removeD (id : Nat) (slots : List Slot) (dead : List Nat) :
    Bool × List Slot × List Nat :=
  if slots.any (fun s => s.id == id) then
    let dead' := id :: dead
    (true, slots.filter (fun s => !dead'.contains s.id), dead')
  else (false, slots, dead)

/-- The registration part of `EventSystem::subscribe` / `subscribeOnce`
(`TEventSystem::SubscribeImpl`): take `next_id_` and increment it,
get-or-create the dispatcher, `Dispatcher::subscribe` (push_back, then
stable sort by descending priority), record `id → type tag`.  The
`notifyCurrentDispatch` call that follows in the source is performed by the
machine step for `Cmd.sub`, because it may run a callback. -/
def subscribeSys (sys : Sys) (ty prio : Nat) (oneShot : Bool) (p : Nat) :
    Sys × Nat :=
  let id := sys.nextId
  let slots' := sortSlots (slotsOf sys ty ++ [⟨id, prio, p, oneShot⟩])
  let disp' := if (lookupA sys.disp ty).isSome then setA sys.disp ty slots'
               else sys.disp ++ [(ty, slots')]
  ({ disp := disp', handlerTypes := sys.handlerTypes ++ [(id, ty)],
     nextId := id + 1, dead := sys.dead }, id)

/-- `EventSystem::unsubscribe` / `TEventSystem::UnsubscribeImpl`: look the
type tag up in `handler_types_` (unknown id: no-op), erase that entry, find
the dispatcher, and call its `remove` (whose boolean result is ignored). -/
def unsubscribeSys (sys : Sys) (id : Nat) : Sys :=
  match lookupA sys.handlerTypes id with
  | none => sys
  | some ty =>
    let sys1 : Sys := { sys with handlerTypes := eraseA sys.handlerTypes id }
    match lookupA sys1.disp ty with
    | none => sys1
    | some slots =>
      let r := removeD id slots sys1.dead
      { sys1 with disp := setA sys1.disp ty r.2.1, dead := r.2.2 }

/-- `Dispatcher::count`: number of slots whose `Active` flag is true. -/
def countD (slots : List Slot) (dead : List Nat) : Nat :=
  (slots.filter (fun s => !dead.contains s.id)).length

/-- `EventSystem::getHandlerCount`: 0 if the dispatcher is absent,
otherwise its active-slot count. -/
def countSys (sys : Sys) (ty : Nat) : Nat :=
  match lookupA sys.disp ty with
  | none => 0
  | some slots => countD slots sys.dead

/-- `EventSystem::getDispatcher`: insert-if-absent of a fresh dispatcher. -/
def ensureDisp (sys : Sys) (ty : Nat) : Sys :=
  if (lookupA sys.disp ty).isSome then sys
  else { sys with disp := sys.disp ++ [(ty, [])] }

/-- One dispatch frame as seen by `notifyCurrentDispatch`: the bus pointer
(`system`), the event type tag and the event value of an in-flight
delivery. -/
structure FrameI where
  sysRef : Nat
  ty : Nat
  ev : Nat
deriving DecidableEq, Repr

/-- `EventSystem::notifyCurrentDispatch`: walk the thread-local dispatch
stack from the innermost frame (`rbegin`), select the first frame whose bus
and event type both match, and stop (`break`).  The stack is listed
innermost-first; the selected frame (if any) is the one whose
`invokeNewHandler` / `InvokeSingle` is called. -/
def notifySelect (stack : List FrameI) (sysR ty : Nat) : Option FrameI :=
  stack.find? (fun f => f.sysRef == sysR && f.ty == ty)

/-- Handler-program commands: what a callback body may do.  `pub` is
`dispatch`, `pubIf ty b` dispatches `{ev+1}` when the received event value
is below `b` (the guard used by the recursive-dispatch tests), `pubCatch`
is a dispatch wrapped in a caller-side try/catch (`EXPECT_THROW`), `sub` is
`subscribe` / `subscribeOnce`, `subIfGe b …` subscribes only when the
received event value is at least `b`, `unsub` is `unsubscribe`, and
`throwE` throws an exception out of the callback. -/
inductive Cmd where
  | pub (ty ev : Nat)
  | pubIf (ty bound : Nat)
  | pubCatch (ty ev : Nat)
  | sub (ty prio : Nat) (oneShot : Bool) (p : Nat)
  | subIfGe (bound ty prio : Nat) (oneShot : Bool) (p : Nat)
  | unsub (id : Nat)
  | throwE
deriving DecidableEq, Repr

/-- Which dispatcher generation is running: `td` is
`NEventSystem::NInternal::TDispatcher`, `es` is
`event_system::internal::Dispatcher`. -/
inductive Variant where
  | td
  | es
deriving DecidableEq, Repr

/-- Activation records of the machine (the C++ call stack):

* `prog ev cmds` — a callback body (or the top-level program) still has
  `cmds` to run, with received event value `ev`;
* `loop ty ev rest nc pend` — a `dispatch` iteration over the remaining
  snapshot `rest`; `nc` is `need_cleanup`; `pend = some id` records (in the
  `es` variant) that the one-shot slot `id` has just returned from its
  callback and its `active = false` store is still to be executed;
* `dframe ty ev` — a dispatch frame pushed on the thread-local stack by
  `EventSystem::dispatch`; popped by the RAII guard on normal and
  exceptional exit alike;
* `single ty id ev` — a pending `invokeSingle` call issued by
  `notifyCurrentDispatch`;
* `oneshotDone ty` — `td` variant: a one-shot claim was made before its
  callback was entered, so `Cleanup` must run afterwards, also when the
  callback throws;
* `esPost ty id oneShot` — `es` variant: the statements of `invokeSingle`
  that follow the callback (`active = false` store and `cleanup` for a
  one-shot); skipped when the callback throws;
* `catchE` — the caller-side catch of `pubCatch`. -/
inductive K where
  | prog (ev : Nat) (cmds : List Cmd)
  | loop (ty ev : Nat) (rest : List Slot) (nc : Bool) (pend : Option Nat)
  | dframe (ty ev : Nat)
  | single (ty id ev : Nat)
  | oneshotDone (ty : Nat)
  | esPost (ty id : Nat) (oneShot : Bool)
  | catchE
deriving DecidableEq, Repr

/-- Machine configuration: bus state, control stack, whether an exception
is unwinding, and the trace of callback invocations `(handler id, event
value)`, recorded at the moment the callback is entered. -/
structure Cfg where
  sys : Sys
  conts : List K
  exc : Bool
  trace : List (Nat × Nat)
deriving DecidableEq, Repr

/-- The thread-local dispatch-frame stack is exactly the `dframe` records
on the control stack, innermost first.  The machine has a single bus, whose
`system` pointer is rendered as 0. -/
def frameStack (conts : List K) : List FrameI :=
  conts.filterMap (fun k =>
    match k with
    | .dframe ty ev => some ⟨0, ty, ev⟩
    | _ => none)

/-- Body of the program with index `p` (absent index: empty body). -/
def progOf (progs : List (List Cmd)) (p : Nat) : List Cmd := progs.getD p []

/-- The control-stack suffix pushed by `EventSystem::dispatch` for event
`(ty, ev)`: take the snapshot of the slot list under the shared lock, push
the dispatch frame, run the iteration. -/
def dispatchKs (sys : Sys) (ty ev : Nat) (ks : List K) : List K :=
  K.loop ty ev (slotsOf sys ty) false none :: K.dframe ty ev :: ks

/-- One step of the delivery machine.  Normal mode executes the top
activation record; unwinding mode (`exc = true`) pops records, running
exactly the clean-up actions the corresponding C++ scopes run during stack
unwinding. -/
def step (v : Variant) (progs : List (List Cmd)) (cfg : Cfg) : Cfg :=
  match cfg.conts with
  | [] => cfg
  | k :: ks =>
    if cfg.exc then
      match k with
      | .loop ty _ _ nc _ =>
        match v with
        | .td =>
          { cfg with sys := if nc then cleanupD cfg.sys ty else cfg.sys,
                     conts := ks }
        | .es => { cfg with conts := ks }
      | .oneshotDone ty => { cfg with sys := cleanupD cfg.sys ty, conts := ks }
      | .catchE => { cfg with exc := false, conts := ks }
      | _ => { cfg with conts := ks }
    else
      match k with
      | .prog _ [] => { cfg with conts := ks }
      | .prog ev (c :: cs) =>
        let ks' := K.prog ev cs :: ks
        match c with
        | .throwE => { cfg with exc := true, conts := ks' }
        | .pub ty ev' =>
          let sys' := ensureDisp cfg.sys ty
          { cfg with sys := sys', conts := dispatchKs sys' ty ev' ks' }
        | .pubIf ty bound =>
          if ev < bound then
            let sys' := ensureDisp cfg.sys ty
            { cfg with sys := sys', conts := dispatchKs sys' ty (ev + 1) ks' }
          else { cfg with conts := ks' }
        | .pubCatch ty ev' =>
          let sys' := ensureDisp cfg.sys ty
          { cfg with sys := sys',
                     conts := dispatchKs sys' ty ev' (K.catchE :: ks') }
        | .sub ty prio oneShot p =>
          let r := subscribeSys cfg.sys ty prio oneShot p
          match notifySelect (frameStack ks') 0 ty with
          | some f => { cfg with sys := r.1, conts := K.single ty r.2 f.ev :: ks' }
          | none => { cfg with sys := r.1, conts := ks' }
        | .subIfGe bound ty prio oneShot p =>
          if bound ≤ ev then
            let r := subscribeSys cfg.sys ty prio oneShot p
            match notifySelect (frameStack ks') 0 ty with
            | some f => { cfg with sys := r.1, conts := K.single ty r.2 f.ev :: ks' }
            | none => { cfg with sys := r.1, conts := ks' }
          else { cfg with conts := ks' }
        | .unsub id => { cfg with sys := unsubscribeSys cfg.sys id, conts := ks' }
      | .loop ty ev rest nc pend =>
        match pend with
        | some id =>
          { cfg with sys := { cfg.sys with dead := id :: cfg.sys.dead },
                     conts := K.loop ty ev rest true none :: ks }
        | none =>
          match rest with
          | [] =>
            { cfg with sys := if nc then cleanupD cfg.sys ty else cfg.sys,
                       conts := ks }
          | s :: rest' =>
            match v with
            | .td =>
              if s.oneShot then
                if cfg.sys.dead.contains s.id then
                  { cfg with conts := K.loop ty ev rest' nc none :: ks }
                else
                  { cfg with
                    sys := { cfg.sys with dead := s.id :: cfg.sys.dead },
                    trace := cfg.trace ++ [(s.id, ev)],
                    conts := K.prog ev (progOf progs s.prog)
                             :: K.loop ty ev rest' true none :: ks }
              else
                if cfg.sys.dead.contains s.id then
                  { cfg with conts := K.loop ty ev rest' nc none :: ks }
                else
                  { cfg with
                    trace := cfg.trace ++ [(s.id, ev)],
                    conts := K.prog ev (progOf progs s.prog)
                             :: K.loop ty ev rest' nc none :: ks }
            | .es =>
              if cfg.sys.dead.contains s.id then
                { cfg with conts := K.loop ty ev rest' nc none :: ks }
              else
                { cfg with
                  trace := cfg.trace ++ [(s.id, ev)],
                  conts := K.prog ev (progOf progs s.prog)
                           :: K.loop ty ev rest' nc
                                (if s.oneShot then some s.id else none) :: ks }
      | .dframe _ _ => { cfg with conts := ks }
      | .single ty id ev =>
        match (slotsOf cfg.sys ty).find? (fun s => s.id == id) with
        | none => { cfg with conts := ks }
        | some s =>
          match v with
          | .td =>
            if cfg.sys.dead.contains id then { cfg with conts := ks }
            else if s.oneShot then
              { cfg with sys := { cfg.sys with dead := id :: cfg.sys.dead },
                         trace := cfg.trace ++ [(id, ev)],
                         conts := K.prog ev (progOf progs s.prog)
                                  :: K.oneshotDone ty :: ks }
            else
              { cfg with trace := cfg.trace ++ [(id, ev)],
                         conts := K.prog ev (progOf progs s.prog) :: ks }
          | .es =>
            if cfg.sys.dead.contains id then { cfg with conts := ks }
            else
              { cfg with trace := cfg.trace ++ [(id, ev)],
                         conts := K.prog ev (progOf progs s.prog)
                                  :: K.esPost ty id s.oneShot :: ks }
      | .oneshotDone ty => { cfg with sys := cleanupD cfg.sys ty, conts := ks }
      | .esPost ty id oneShot =>
        if oneShot then
          { cfg with
            sys := cleanupD { cfg.sys with dead := id :: cfg.sys.dead } ty,
            conts := ks }
        else { cfg with conts := ks }
      | .catchE => { cfg with conts := ks }

/-- Run `n` machine steps. -/
def runN (v : Variant) (progs : List (List Cmd)) : Nat → Cfg → Cfg
  | 0, cfg => cfg
  | n + 1, cfg => runN v progs n (step v progs cfg)

/-- Initial configuration: a fresh bus about to execute the top-level
program `main` (no delivery in flight, empty trace). -/
def initCfg (main : List Cmd) : Cfg := ⟨initSys, [K.prog 0 main], false, []⟩

/-- Number of invocations of handler `id` recorded in a trace. -/
def countInv (id : Nat) (trace : List (Nat × Nat)) : Nat :=
  (trace.filter (fun e => e.1 == id)).length

/-- `EventSystem::ScopedConnection` / `TScopedConnection`: `hasSys` models
whether the `system_` pointer is non-null (the model has one bus, threaded
through separately), `id` is `id_`. -/
structure Conn where
  hasSys : Bool
  id : Nat
deriving DecidableEq, Repr

/-- The no-handler state: null bus pointer, id 0 (default construction,
and the state a moved-from or disconnected registration is left in). -/
def Conn.null : Conn := ⟨false, 0⟩

/-- `ScopedConnection::disconnect`: if the system pointer is non-null and
the id is non-zero, call `unsubscribe(id_)` and reset to the no-handler
state; otherwise do nothing. -/
def disconnect (c : Conn) (s : Sys) : Conn × Sys :=
  if c.hasSys = true ∧ c.id ≠ 0 then (Conn.null, unsubscribeSys s c.id)
  else (c, s)

/-- `ScopedConnection::~ScopedConnection`: the destructor calls
`disconnect`; only the effect on the bus survives. -/
def connDtor (c : Conn) (s : Sys) : Sys := (disconnect c s).2

/-- `ScopedConnection::operator=(ScopedConnection&&)`, branch
`this != &other`: disconnect the target, copy the source's
(system, id), zero the source.  Returns (target, source, bus) after the
assignment. -/
def moveAssign (tgt src : Conn) (s : Sys) : Conn × Conn × Sys :=
  let d := disconnect tgt s
  (⟨src.hasSys, src.id⟩, Conn.null, d.2)

/-- `ScopedConnection::operator=(ScopedConnection&&)`, branch
`this == &other`: the guard skips the whole body, so the registration and
the bus are untouched. -/
def moveAssignSelf (c : Conn) (s : Sys) : Conn × Sys := (c, s)

/-- At-rest bus operations for identifier-allocation statements:
a sequence of `subscribe`/`subscribeOnce` and `unsubscribe` calls. -/
inductive BusOp where
  | sub (ty prio : Nat) (oneShot : Bool) (p : Nat)
  | unsub (id : Nat)
deriving DecidableEq, Repr

/-- Run a sequence of at-rest bus operations, returning the final bus state
and the handler identifiers issued by the subscribe calls, in order. -/
def runOps : Sys → List BusOp → Sys × List Nat
  | s, [] => (s, [])
  | s, BusOp.sub ty prio os p :: rest =>
    let r := subscribeSys s ty prio os p
    let t := runOps r.1 rest
    (t.1, r.2 :: t.2)
  | s, BusOp.unsub id :: rest => runOps (unsubscribeSys s id) rest

/-! ### Scenario inputs used by claim theorems -/

/-- Callback of a one-shot handler that re-publishes the same event type
once: `if (e.value < 1) dispatch({e.value + 1})`. -/
def c1Progs : List (List Cmd) := [[Cmd.pubIf 0 1]]

/-- Subscribe that one-shot handler (Normal priority), then publish `{0}`. -/
def c1Main : List Cmd := [Cmd.sub 0 1 true 0, Cmd.pub 0 0]

/-- Program 0: a callback that throws; program 1: a no-op callback. -/
def c2Progs : List (List Cmd) := [[Cmd.throwE], []]

/-- Subscribe a Normal one-shot that throws and a plain Low handler, then
publish twice, catching the exception at the publisher (`EXPECT_THROW`). -/
def c2Main : List Cmd :=
  [Cmd.sub 0 1 true 0, Cmd.sub 0 0 false 1, Cmd.pubCatch 0 5, Cmd.pubCatch 0 5]

/-- A dispatcher slot list holding one slot whose `Active` flag is already
false — the state of a one-shot slot that has been claimed by an in-flight
delivery whose cleanup has not happened yet. -/
def c6Slots : List Slot := [⟨1, 1, 0, true⟩]

end EventSys

namespace EventSys

/-- C1: the claim asserts that a one-shot handler's callback runs at most
once across any sequence of deliveries, including re-entrant publishes
from inside its own callback, because the one-shot claim (the
true → false transition of `active`) happens before the callback is
invoked.  That is exactly what `TDispatcher::Dispatch` does (compare-and-
set, then invoke: the `td` run below invokes the handler once), but
`event_system::internal::Dispatcher::dispatch` stores `active = false`
only *after* the callback returns, so a re-entrant dispatch of the same
event type issued from inside the one-shot's callback still sees
`active == true` and invokes the callback a second time: the `es` run
below invokes handler 1 twice (at event values 0 and 1). -/
theorem C1_oneShot_reentrant_double_invocation :
    countInv 1 (runN .es c1Progs 30 (initCfg c1Main)).trace = 2 ∧
    (runN .es c1Progs 30 (initCfg c1Main)).trace = [(1, 0), (1, 1)] ∧
    (runN .es c1Progs 30 (initCfg c1Main)).conts = [] ∧
    countInv 1 (runN .td c1Progs 30 (initCfg c1Main)).trace = 1 ∧
    (runN .td c1Progs 30 (initCfg c1Main)).trace = [(1, 0)] := by
  decide

/-- C2: the claim asserts that when a callback throws, any one-shot claim
already made is finalized by cleanup before the exception escapes, and in
particular a one-shot whose callback threw does not fire again on a later
publish.  `TDispatcher::Dispatch` satisfies this (`td` run: the one-shot
fires once, its slot is excised, the second publish reaches the remaining
Low handler), but `event_system::internal::Dispatcher::dispatch` has no
`try`/`catch` and clears `active` only after the callback returns, so when
the callback throws the one-shot slot stays active and is invoked again by
the next publish (`es` run: handler 1 fires on both publishes, the Low
handler 2 is never reached, and both slots are still present). -/
theorem C2_exception_leaves_one_shot_active_in_es_dispatcher :
    (runN .td c2Progs 40 (initCfg c2Main)).trace = [(1, 5), (2, 5)] ∧
    countSys (runN .td c2Progs 40 (initCfg c2Main)).sys 0 = 1 ∧
    (runN .td c2Progs 40 (initCfg c2Main)).conts = [] ∧
    (runN .es c2Progs 40 (initCfg c2Main)).trace = [(1, 5), (1, 5)] ∧
    countSys (runN .es c2Progs 40 (initCfg c2Main)).sys 0 = 2 ∧
    (runN .es c2Progs 40 (initCfg c2Main)).conts = [] := by
  decide

/-- C6 counterexample: the claim says `remove(id)` returns false when the
slot with that identifier is already inactive (for example a one-shot
already claimed during an in-flight delivery).  On such a state —
slot 1 present in the list, its `Active` flag already false — `Remove`
finds the slot and returns true, not false. -/
theorem C6_remove_inactive_slot_returns_true :
    ¬ (removeD 1 c6Slots [1]).1 = false := by
  decide

/-- C6 (amended): `remove(id)` returns false exactly when no slot with
identifier `id` exists in the slot list — regardless of the slot's
`Active` flag; when such a slot exists, `remove` stores `Active := false`,
excises all inactive slots, and returns true, and when it returns false it
changes nothing. -/
theorem C6_remove_found_iff_present (id : Nat) (slots : List Slot)
    (dead : List Nat) :
    ((removeD id slots dead).1 = true ↔ ∃ s ∈ slots, s.id = id) ∧
    ((removeD id slots dead).1 = true →
      (removeD id slots dead).2.2 = id :: dead ∧
      (removeD id slots dead).2.1 =
        slots.filter (fun s => !(id :: dead).contains s.id)) ∧
    ((removeD id slots dead).1 = false →
      removeD id slots dead = (false, slots, dead)) := by
  unfold removeD
  by_cases h : slots.any (fun s => s.id == id) = true
  · rw [if_pos h]
    refine ⟨⟨fun _ => ?_, fun _ => rfl⟩, fun _ => ⟨rfl, rfl⟩,
            fun hf => by simp at hf⟩
    simp only [List.any_eq_true, beq_iff_eq] at h
    simpa using h
  · rw [if_neg h]
    refine ⟨⟨fun hf => by simp at hf, fun hex => absurd ?_ h⟩,
            fun hf => by simp at hf, fun _ => rfl⟩
    obtain ⟨s, hs, hid⟩ := hex
    exact List.any_eq_true.mpr ⟨s, hs, by simp [hid]⟩

/-- C6 witness: the amended characterization evaluated at a concrete
input: removing id 1 from a list that contains slot 1 succeeds. -/
theorem C6_remove_found_iff_present_witness :
    ((removeD 1 c6Slots []).1 = true ↔ ∃ s ∈ c6Slots, s.id = 1) ∧
    ((removeD 1 c6Slots []).1 = true →
      (removeD 1 c6Slots []).2.2 = 1 :: [] ∧
      (removeD 1 c6Slots []).2.1 =
        c6Slots.filter (fun s => !([1] : List Nat).contains s.id)) ∧
    ((removeD 1 c6Slots []).1 = false →
      removeD 1 c6Slots [] = (false, c6Slots, [])) :=
  C6_remove_found_iff_present 1 c6Slots []

/-- `unsubscribe` never touches the id counter. -/
theorem unsubscribeSys_nextId (s : Sys) (id : Nat) :
    (unsubscribeSys s id).nextId = s.nextId := by
  unfold unsubscribeSys
  split
  · rfl
  · dsimp only
    split <;> rfl

/-- Ids issued by a sequence of at-rest bus operations are all at least the
starting value of the counter and strictly increase in issue order. -/
theorem runOps_ids (ops : List BusOp) : ∀ s : Sys,
    (∀ i ∈ (runOps s ops).2, s.nextId ≤ i) ∧
    ((runOps s ops).2).Pairwise (· < ·) := by
  induction ops with
  | nil => intro s; simp [runOps]
  | cons op rest ih =>
    intro s
    cases op with
    | sub ty prio os p =>
      have h := ih (subscribeSys s ty prio os p).1
      have hnext : (subscribeSys s ty prio os p).1.nextId = s.nextId + 1 := rfl
      have hsnd : (subscribeSys s ty prio os p).2 = s.nextId := rfl
      rw [hnext] at h
      constructor
      · intro i hi
        simp only [runOps, List.mem_cons] at hi
        rcases hi with h1 | h1
        · rw [h1, hsnd]
        · exact Nat.le_of_succ_le (h.1 i h1)
      · simp only [runOps]
        refine List.pairwise_cons.mpr ⟨fun i hi => ?_, h.2⟩
        rw [hsnd]
        exact Nat.lt_of_succ_le (h.1 i hi)
    | unsub id =>
      have h := ih (unsubscribeSys s id)
      rw [unsubscribeSys_nextId] at h
      exact h

/-- C8 counterexample: identifiers are not process-wide.  The id counter
`next_id_` is a non-static member of each bus, so two distinct buses (each
freshly constructed, hence each equal to `initSys`) both issue 1 as their
first handler identifier: the id issued second is not strictly greater
than the id issued earlier in the same process. -/
theorem C8_process_wide_monotonicity_fails :
    (subscribeSys initSys 0 1 false 0).2 = 1 ∧
    (subscribeSys initSys 1 2 false 0).2 = 1 ∧
    ¬ (subscribeSys initSys 0 1 false 0).2 <
        (subscribeSys initSys 1 2 false 0).2 := by
  decide

/-- C8 (amended): the identifier counter is per-bus.  On one bus, every
identifier issued by `subscribe` / `subscribeOnce` is at least 1, each
issued id is strictly greater than every id issued before it on that bus
(so ids are never reused there), and the reserved value 0 is never
issued. -/
theorem C8_per_bus_ids_strictly_increasing (ops : List BusOp) :
    (∀ i ∈ (runOps initSys ops).2, 1 ≤ i) ∧
    ((runOps initSys ops).2).Pairwise (· < ·) ∧
    0 ∉ (runOps initSys ops).2 := by
  have h := runOps_ids ops initSys
  exact ⟨h.1, h.2, fun h0 => absurd (h.1 0 h0) (by decide)⟩

/-- C9: move-assignment of a scoped registration (distinct objects) first
disconnects the target — when the target holds a live registration
(non-null bus, non-zero id) this unsubscribes exactly that id; when the
target holds nothing the bus is untouched — then transfers the
(bus, id) pair from the source and leaves the source in the no-handler
state; the `this == &other` guard makes self-move-assignment leave
everything unchanged. -/
theorem C9_move_assign (tgt src : Conn) (s : Sys) :
    (moveAssign tgt src s).1 = ⟨src.hasSys, src.id⟩ ∧
    (moveAssign tgt src s).2.1 = Conn.null ∧
    (tgt.hasSys = true → tgt.id ≠ 0 →
      (moveAssign tgt src s).2.2 = unsubscribeSys s tgt.id) ∧
    (tgt.id = 0 → (moveAssign tgt src s).2.2 = s) ∧
    (tgt.hasSys = false → (moveAssign tgt src s).2.2 = s) ∧
    moveAssignSelf tgt s = (tgt, s) := by
  unfold moveAssign disconnect
  refine ⟨rfl, rfl, fun h1 h2 => ?_, fun h0 => ?_, fun hn => ?_, rfl⟩
  · rw [if_pos ⟨h1, h2⟩]
  · rw [if_neg (fun hc => hc.2 h0)]
  · rw [if_neg (fun hc => by rw [hn] at hc; exact Bool.false_ne_true hc.1)]

/-- Unfolding lemma: a lookup checks the head entry first. -/
theorem lookupA_cons {α : Type} (e : Nat × α) (m : List (Nat × α)) (k : Nat) :
    lookupA (e :: m) k =
      if (e.1 == k) = true then some e.2 else lookupA m k := by
  by_cases he : (e.1 == k) = true
  · simp [lookupA, List.find?_cons, he]
  · have hf : (e.1 == k) = false := by simpa using he
    simp [lookupA, List.find?_cons, hf]

/-- Looking a key up after appending an entry with a key no existing entry
carries finds the appended value. -/
theorem lookupA_append_fresh {α : Type} (m : List (Nat × α)) (k : Nat)
    (v : α) (h : ∀ e ∈ m, e.1 ≠ k) : lookupA (m ++ [(k, v)]) k = some v := by
  induction m with
  | nil => simp [lookupA]
  | cons e rest ih =>
    have he : (e.1 == k) = false := by
      simpa using h e (List.mem_cons_self e rest)
    rw [List.cons_append, lookupA_cons, if_neg (by simp [he])]
    exact ih (fun e' h' => h e' (List.mem_cons_of_mem e h'))

/-- Appending a fresh entry and erasing its key restores the map. -/
theorem eraseA_append_fresh {α : Type} (m : List (Nat × α)) (k : Nat)
    (v : α) (h : ∀ e ∈ m, e.1 ≠ k) : eraseA (m ++ [(k, v)]) k = m := by
  induction m with
  | nil => simp [eraseA]
  | cons e rest ih =>
    have he : (e.1 == k) = false := by
      simpa using h e (List.mem_cons_self e rest)
    simp only [List.cons_append, eraseA, he, Bool.false_eq_true, if_false,
      List.cons.injEq, true_and]
    exact ih (fun e' h' => h e' (List.mem_cons_of_mem e h'))

/-- A key absent from the map is left untouched by `setA`. -/
theorem setA_of_not_mem {α : Type} (m : List (Nat × α)) (k : Nat) (v : α)
    (h : ∀ e ∈ m, e.1 ≠ k) : setA m k v = m := by
  induction m with
  | nil => rfl
  | cons e rest ih =>
    have he : (e.1 == k) = false := by
      simpa using h e (List.mem_cons_self e rest)
    rw [setA, if_neg (by simp [he])]
    exact congrArg (e :: ·) (ih (fun e' h' => h e' (List.mem_cons_of_mem e h')))

/-- Keys of entries behind a head whose key occurs only once differ from
that key. -/
theorem keys_fresh_of_nodup {α : Type} (e : Nat × α) (rest : List (Nat × α))
    (hnd : (((e :: rest).map Prod.fst)).Nodup) :
    ∀ e' ∈ rest, e'.1 ≠ e.1 := by
  intro e' h' hk'
  have h2 : (e.1 :: rest.map Prod.fst).Nodup := by
    rw [List.map_cons] at hnd
    exact hnd
  exact (List.nodup_cons.mp h2).1 (List.mem_map.mpr ⟨e', h', hk'⟩)

/-- Tail of a nodup key list is nodup. -/
theorem keys_nodup_tail {α : Type} (e : Nat × α) (rest : List (Nat × α))
    (hnd : (((e :: rest).map Prod.fst)).Nodup) :
    ((rest.map Prod.fst)).Nodup := by
  rw [List.map_cons] at hnd
  exact hnd.of_cons

/-- Writing back the value a key already holds is the identity when the
map's keys are distinct (as in `unordered_map`). -/
theorem setA_self {α : Type} (m : List (Nat × α)) (k : Nat) (v : α)
    (hnd : (m.map Prod.fst).Nodup) (h : lookupA m k = some v) :
    setA m k v = m := by
  induction m with
  | nil => simp [lookupA] at h
  | cons e rest ih =>
    by_cases he : e.1 = k
    · have hbeq : (e.1 == k) = true := by simpa using he
      have hv : e.2 = v := by
        rw [lookupA_cons, if_pos hbeq] at h
        exact Option.some.inj h
      have hk : ∀ e' ∈ rest, e'.1 ≠ k := fun e' h' =>
        he ▸ keys_fresh_of_nodup e rest hnd e' h'
      rw [setA, if_pos hbeq]
      have hev : (k, v) = e := by
        rw [← he, ← hv]
      rw [hev]
      exact congrArg (e :: ·) (setA_of_not_mem rest k v hk)
    · have hbeq : (e.1 == k) = false := by simpa using he
      have h' : lookupA rest k = some v := by
        rwa [lookupA_cons, if_neg (by simp [hbeq])] at h
      rw [setA, if_neg (by simp [hbeq])]
      exact congrArg (e :: ·) (ih (keys_nodup_tail e rest hnd) h')

/-- Looking up the key just overwritten by `setA` yields the new value,
provided the key was present. -/
theorem lookupA_setA_eq {α : Type} (m : List (Nat × α)) (k : Nat) (v w : α)
    (h : lookupA m k = some w) : lookupA (setA m k v) k = some v := by
  induction m with
  | nil => simp [lookupA] at h
  | cons e rest ih =>
    by_cases he : (e.1 == k) = true
    · rw [setA, if_pos he, lookupA_cons, if_pos (by simp)]
    · have hne : (e.1 == k) = false := by simpa using he
      have h' : lookupA rest k = some w := by
        rwa [lookupA_cons, if_neg (by simp [hne])] at h
      rw [setA, if_neg (by simp [hne]), lookupA_cons,
        if_neg (by simp [hne])]
      exact ih h'

/-- `setA` on one key does not change lookups of other keys. -/
theorem lookupA_setA_ne {α : Type} (m : List (Nat × α)) (k k' : Nat) (v : α)
    (h : k' ≠ k) : lookupA (setA m k v) k' = lookupA m k' := by
  induction m with
  | nil => rfl
  | cons e rest ih =>
    by_cases he : (e.1 == k) = true
    · have hek : e.1 = k := by simpa using he
      have h1 : ((k : Nat) == k') = false := by
        simpa using fun hc : k = k' => h hc.symm
      have h2 : (e.1 == k') = false := by
        rw [hek]; exact h1
      rw [setA, if_pos he, lookupA_cons, if_neg (by simp [h1]),
        lookupA_cons, if_neg (by simp [h2])]
      exact ih
    · have hne : (e.1 == k) = false := by simpa using he
      rw [setA, if_neg (by simp [hne]), lookupA_cons, lookupA_cons]
      by_cases he' : (e.1 == k') = true
      · rw [if_pos he', if_pos he']
      · rw [if_neg he', if_neg he']
        exact ih

/-- Appending an entry for a different key does not change a lookup. -/
theorem lookupA_append_ne {α : Type} (m : List (Nat × α)) (k k' : Nat)
    (v : α) (h : k' ≠ k) : lookupA (m ++ [(k, v)]) k' = lookupA m k' := by
  induction m with
  | nil =>
    have h1 : ((k : Nat) == k') = false := by
      simpa using fun hc : k = k' => h hc.symm
    simp [lookupA, h1]
  | cons e rest ih =>
    rw [List.cons_append, lookupA_cons, lookupA_cons]
    by_cases he : (e.1 == k') = true
    · rw [if_pos he, if_pos he]
    · rw [if_neg he, if_neg he]
      exact ih

/-- A failed lookup means no entry carries the key. -/
theorem lookupA_eq_none_iff {α : Type} (m : List (Nat × α)) (k : Nat) :
    lookupA m k = none ↔ ∀ e ∈ m, e.1 ≠ k := by
  simp [lookupA, List.find?_eq_none]

/-- Erasing a key from a map with distinct keys makes its lookup fail. -/
theorem lookupA_eraseA_self {α : Type} (m : List (Nat × α)) (k : Nat)
    (hnd : (m.map Prod.fst).Nodup) : lookupA (eraseA m k) k = none := by
  induction m with
  | nil => rfl
  | cons e rest ih =>
    by_cases he : (e.1 == k) = true
    · have hk : e.1 = k := by simpa using he
      rw [eraseA, if_pos he, lookupA_eq_none_iff]
      exact fun e' h' => hk ▸ keys_fresh_of_nodup e rest hnd e' h'
    · have hne : (e.1 == k) = false := by simpa using he
      rw [eraseA, if_neg (by simp [hne]), lookupA_cons,
        if_neg (by simp [hne])]
      exact ih (keys_nodup_tail e rest hnd)

/-- A successful lookup comes from an entry of the map. -/
theorem lookupA_mem {α : Type} {m : List (Nat × α)} {k : Nat} {v : α}
    (h : lookupA m k = some v) : ∃ e, e ∈ m ∧ e.1 = k ∧ e.2 = v := by
  unfold lookupA at h
  cases hf : m.find? (fun e => e.1 == k) with
  | none => rw [hf] at h; simp at h
  | some e =>
    rw [hf] at h
    refine ⟨e, List.mem_of_find?_eq_some hf, ?_, ?_⟩
    · simpa using List.find?_some hf
    · simpa using h

/-- C9 witness: move-assigning a live registration (bus, id 1) onto a live
registration (bus, id 2) on a bus where both are subscribed: the target's
old id 2 is unsubscribed, the target takes id 1, the source is zeroed. -/
theorem C9_move_assign_witness :
    (moveAssign ⟨true, 2⟩ ⟨true, 1⟩ (runOps initSys
        [BusOp.sub 0 1 false 0, BusOp.sub 0 1 false 0]).1).1 = ⟨true, 1⟩ ∧
    (moveAssign ⟨true, 2⟩ ⟨true, 1⟩ (runOps initSys
        [BusOp.sub 0 1 false 0, BusOp.sub 0 1 false 0]).1).2.1 = Conn.null ∧
    ((true : Bool) = true → (2 : Nat) ≠ 0 →
      (moveAssign ⟨true, 2⟩ ⟨true, 1⟩ (runOps initSys
          [BusOp.sub 0 1 false 0, BusOp.sub 0 1 false 0]).1).2.2 =
        unsubscribeSys (runOps initSys
          [BusOp.sub 0 1 false 0, BusOp.sub 0 1 false 0]).1 2) ∧
    ((2 : Nat) = 0 →
      (moveAssign ⟨true, 2⟩ ⟨true, 1⟩ (runOps initSys
          [BusOp.sub 0 1 false 0, BusOp.sub 0 1 false 0]).1).2.2 =
        (runOps initSys [BusOp.sub 0 1 false 0, BusOp.sub 0 1 false 0]).1) ∧
    ((true : Bool) = false →
      (moveAssign ⟨true, 2⟩ ⟨true, 1⟩ (runOps initSys
          [BusOp.sub 0 1 false 0, BusOp.sub 0 1 false 0]).1).2.2 =
        (runOps initSys [BusOp.sub 0 1 false 0, BusOp.sub 0 1 false 0]).1) ∧
    moveAssignSelf ⟨true, 2⟩ (runOps initSys
        [BusOp.sub 0 1 false 0, BusOp.sub 0 1 false 0]).1 =
      (⟨true, 2⟩, (runOps initSys
        [BusOp.sub 0 1 false 0, BusOp.sub 0 1 false 0]).1) :=
  C9_move_assign ⟨true, 2⟩ ⟨true, 1⟩ _

/-- Marking an id dead that no slot of the list carries does not change the
active count. -/
theorem countD_cons_dead (slots : List Slot) (dead : List Nat) (id : Nat)
    (h : ∀ sl ∈ slots, sl.id ≠ id) :
    countD slots (id :: dead) = countD slots dead := by
  unfold countD
  congr 1
  apply List.filter_congr
  intro sl hsl
  have hb : (sl.id == id) = false := by simpa using h sl hsl
  simp only [List.contains_cons, hb, Bool.false_or]

/-- `unsubscribe` of an id absent from `handler_types_` is a no-op. -/
theorem unsubscribeSys_of_lookup_none (s : Sys) (id : Nat)
    (h : lookupA s.handlerTypes id = none) : unsubscribeSys s id = s := by
  unfold unsubscribeSys
  rw [h]

/-- What `unsubscribe` leaves in `handler_types_`. -/
theorem unsubscribeSys_handlerTypes (s : Sys) (id : Nat) :
    (unsubscribeSys s id).handlerTypes =
      match lookupA s.handlerTypes id with
      | none => s.handlerTypes
      | some _ => eraseA s.handlerTypes id := by
  unfold unsubscribeSys
  cases h : lookupA s.handlerTypes id with
  | none => rfl
  | some ty =>
    dsimp only
    split <;> rfl

/-- Program table for the C10 scenario: the one-shot's callback is empty. -/
def c10Progs : List (List Cmd) := [[]]

/-- C10 scenario: subscribe a one-shot at rest, publish once (the handler
fires and its slot is excised by cleanup). -/
def c10Main : List Cmd := [Cmd.sub 0 1 true 0, Cmd.pub 0 5]

/-- C10: after a one-shot has fired and its slot was excised, the bus's
`handler_types_` map still holds the handler's id (the concrete run below
ends with the mapping `[(1, 0)]`, an empty slot list, and handler count 0);
a later `unsubscribe` with such a stale id — an id mapped to a type whose
dispatcher has no slot with that id — erases exactly that mapping entry and
changes nothing else, leaving `handler_count` unchanged for every event
type. -/
theorem C10_stale_mapping_erase_only (s : Sys) (id ty : Nat)
    (hmap : lookupA s.handlerTypes id = some ty)
    (hslots : ∀ sl ∈ slotsOf s ty, sl.id ≠ id)
    (hnd : (s.disp.map Prod.fst).Nodup) :
    unsubscribeSys s id = { s with handlerTypes := eraseA s.handlerTypes id } ∧
    (∀ ty2, countSys { s with handlerTypes := eraseA s.handlerTypes id } ty2 =
      countSys s ty2) ∧
    (runN .td c10Progs 20 (initCfg c10Main)).sys.handlerTypes = [(1, 0)] ∧
    slotsOf (runN .td c10Progs 20 (initCfg c10Main)).sys 0 = [] ∧
    countSys (runN .td c10Progs 20 (initCfg c10Main)).sys 0 = 0 ∧
    unsubscribeSys (runN .td c10Progs 20 (initCfg c10Main)).sys 1 =
      { (runN .td c10Progs 20 (initCfg c10Main)).sys with handlerTypes := [] } := by
  refine ⟨?_, fun ty2 => rfl, by decide, by decide, by decide, by decide⟩
  unfold unsubscribeSys
  rw [hmap]
  dsimp only
  cases hd : lookupA s.disp ty with
  | none => rfl
  | some slots =>
    dsimp only
    have hslots' : ∀ sl ∈ slots, sl.id ≠ id := by
      intro sl hsl
      apply hslots
      unfold slotsOf
      rw [hd]
      exact hsl
    have hany : (slots.any (fun sl => sl.id == id)) = false := by
      rw [Bool.eq_false_iff]
      intro hc
      obtain ⟨sl, hsl, hb⟩ := List.any_eq_true.mp hc
      exact hslots' sl hsl (by simpa using hb)
    unfold removeD
    rw [hany]
    simp only [Bool.false_eq_true, if_false]
    rw [setA_self s.disp ty slots hnd hd]

/-- The bus state after the C10 scenario: the one-shot has fired and its
slot is excised, but `handler_types_` still maps id 1. -/
def c10S : Sys := (runN .td c10Progs 20 (initCfg c10Main)).sys

/-- C10 witness: the universal part applied to the concrete post-one-shot
state, in which id 1 is a stale mapping entry. -/
theorem C10_stale_mapping_erase_only_witness :
    unsubscribeSys c10S 1 =
      { c10S with handlerTypes := eraseA c10S.handlerTypes 1 } ∧
    (∀ ty2, countSys { c10S with handlerTypes := eraseA c10S.handlerTypes 1 }
      ty2 = countSys c10S ty2) ∧
    (runN .td c10Progs 20 (initCfg c10Main)).sys.handlerTypes = [(1, 0)] ∧
    slotsOf (runN .td c10Progs 20 (initCfg c10Main)).sys 0 = [] ∧
    countSys (runN .td c10Progs 20 (initCfg c10Main)).sys 0 = 0 ∧
    unsubscribeSys (runN .td c10Progs 20 (initCfg c10Main)).sys 1 =
      { (runN .td c10Progs 20 (initCfg c10Main)).sys with
        handlerTypes := [] } :=
  C10_stale_mapping_erase_only c10S 1 0 (by decide) (by decide) (by decide)

/-- Explicit form of `unsubscribe` when the id maps to a type whose
dispatcher holds a slot with that id. -/
theorem unsubscribeSys_known (s2 : Sys) (id ty : Nat) (slots : List Slot)
    (hm : lookupA s2.handlerTypes id = some ty)
    (hd : lookupA s2.disp ty = some slots)
    (hin : slots.any (fun sl => sl.id == id) = true) :
    unsubscribeSys s2 id =
      { disp := setA s2.disp ty
          (slots.filter (fun sl => !(id :: s2.dead).contains sl.id)),
        handlerTypes := eraseA s2.handlerTypes id,
        nextId := s2.nextId, dead := id :: s2.dead } := by
  unfold unsubscribeSys
  rw [hm]
  dsimp only
  rw [hd]
  dsimp only
  unfold removeD
  rw [hin]
  rfl

/-- `handler_count` is the active-slot count of the type's slot list. -/
theorem countSys_eq_countD (s : Sys) (ty : Nat) :
    countSys s ty = countD (slotsOf s ty) s.dead := by
  unfold countSys slotsOf
  cases lookupA s.disp ty with
  | none => rfl
  | some w => rfl

/-- The dispatcher lookup after the registration part of `subscribe`:
the subscribed type's list has the new slot stably sorted in. -/
theorem subscribeSys_lookup_eq (s : Sys) (ty prio : Nat) (os : Bool)
    (p : Nat) :
    lookupA (subscribeSys s ty prio os p).1.disp ty =
      some (sortSlots (slotsOf s ty ++ [⟨s.nextId, prio, p, os⟩])) := by
  cases hpres : lookupA s.disp ty with
  | some w =>
    have hdisp : (subscribeSys s ty prio os p).1.disp =
        setA s.disp ty (sortSlots (slotsOf s ty ++ [⟨s.nextId, prio, p, os⟩])) := by
      unfold subscribeSys
      dsimp only
      rw [if_pos (by rw [hpres]; rfl)]
    rw [hdisp]
    exact lookupA_setA_eq s.disp ty _ w hpres
  | none =>
    have hdisp : (subscribeSys s ty prio os p).1.disp =
        s.disp ++ [(ty, sortSlots (slotsOf s ty ++ [⟨s.nextId, prio, p, os⟩]))] := by
      unfold subscribeSys
      dsimp only
      rw [if_neg (by rw [hpres]; simp)]
    rw [hdisp]
    exact lookupA_append_fresh s.disp ty _ ((lookupA_eq_none_iff s.disp ty).mp hpres)

/-- Dispatcher lookups of other types are untouched by `subscribe`. -/
theorem subscribeSys_lookup_ne (s : Sys) (ty ty2 prio : Nat) (os : Bool)
    (p : Nat) (h : ty2 ≠ ty) :
    lookupA (subscribeSys s ty prio os p).1.disp ty2 =
      lookupA s.disp ty2 := by
  cases hpres : lookupA s.disp ty with
  | some w =>
    have hdisp : (subscribeSys s ty prio os p).1.disp =
        setA s.disp ty (sortSlots (slotsOf s ty ++ [⟨s.nextId, prio, p, os⟩])) := by
      unfold subscribeSys
      dsimp only
      rw [if_pos (by rw [hpres]; rfl)]
    rw [hdisp]
    exact lookupA_setA_ne s.disp ty ty2 _ h
  | none =>
    have hdisp : (subscribeSys s ty prio os p).1.disp =
        s.disp ++ [(ty, sortSlots (slotsOf s ty ++ [⟨s.nextId, prio, p, os⟩]))] := by
      unfold subscribeSys
      dsimp only
      rw [if_neg (by rw [hpres]; simp)]
    rw [hdisp]
    exact lookupA_append_ne s.disp ty ty2 _ h

/-- Slots stored for a type all come from the `disp` map. -/
theorem slotsOf_subset (s : Sys) (ty : Nat) (hIds : ∀ e ∈ s.disp,
    ∀ sl ∈ e.2, sl.id < s.nextId) :
    ∀ sl ∈ slotsOf s ty, sl.id < s.nextId := by
  intro sl hsl
  unfold slotsOf at hsl
  cases hd : lookupA s.disp ty with
  | none => rw [hd] at hsl; cases hsl
  | some w =>
    rw [hd] at hsl
    obtain ⟨e, he, hk, hv⟩ := lookupA_mem hd
    exact hIds e he sl (hv ▸ hsl)

/-- Subscribing and then unsubscribing the returned id restores the active
handler count of every event type. -/
theorem count_roundtrip (s : Sys) (ty prio : Nat) (os : Bool) (p : Nat)
    (hIds : ∀ e ∈ s.disp, ∀ sl ∈ e.2, sl.id < s.nextId)
    (hKeys : ∀ e ∈ s.handlerTypes, e.1 < s.nextId) (ty2 : Nat) :
    countSys (unsubscribeSys (subscribeSys s ty prio os p).1
      (subscribeSys s ty prio os p).2) ty2 = countSys s ty2 := by
  have hsnd : (subscribeSys s ty prio os p).2 = s.nextId := rfl
  have hht : (subscribeSys s ty prio os p).1.handlerTypes =
      s.handlerTypes ++ [(s.nextId, ty)] := rfl
  have hdead : (subscribeSys s ty prio os p).1.dead = s.dead := rfl
  have hmap : lookupA (subscribeSys s ty prio os p).1.handlerTypes s.nextId =
      some ty := by
    rw [hht]
    exact lookupA_append_fresh _ _ _
      (fun e he => Nat.ne_of_lt (hKeys e he))
  have hlook := subscribeSys_lookup_eq s ty prio os p
  have hmem : (⟨s.nextId, prio, p, os⟩ : Slot) ∈
      sortSlots (slotsOf s ty ++ [⟨s.nextId, prio, p, os⟩]) := by
    unfold sortSlots
    rw [List.mem_insertionSort]
    exact List.mem_append_right _ (List.mem_cons_self _ _)
  have hany : (sortSlots (slotsOf s ty ++ [⟨s.nextId, prio, p, os⟩])).any
      (fun sl => sl.id == s.nextId) = true :=
    List.any_eq_true.mpr ⟨_, hmem, by simp⟩
  rw [hsnd, unsubscribeSys_known _ s.nextId ty _ hmap hlook hany, hdead]
  set fl := (sortSlots (slotsOf s ty ++ [⟨s.nextId, prio, p, os⟩])).filter
      (fun sl => !(s.nextId :: s.dead).contains sl.id) with hfl
  by_cases hty : ty2 = ty
  · subst hty
    rw [countSys_eq_countD, countSys_eq_countD]
    unfold slotsOf
    dsimp only
    rw [lookupA_setA_eq _ ty2 _ _ hlook]
    dsimp only [Option.getD_some]
    have hperm : List.Perm
        (sortSlots (slotsOf s ty2 ++ [⟨s.nextId, prio, p, os⟩]))
        (slotsOf s ty2 ++ [⟨s.nextId, prio, p, os⟩]) :=
      List.perm_insertionSort slotGE _
    have hfil := hperm.filter
      (fun sl => !(s.nextId :: s.dead).contains sl.id)
    unfold countD
    rw [hfl, List.filter_filter]
    have hband : List.filter
        (fun a => (!(s.nextId :: s.dead).contains a.id) &&
          (!(s.nextId :: s.dead).contains a.id))
        (sortSlots (slotsOf s ty2 ++ [⟨s.nextId, prio, p, os⟩])) =
        List.filter (fun a => !(s.nextId :: s.dead).contains a.id)
        (sortSlots (slotsOf s ty2 ++ [⟨s.nextId, prio, p, os⟩])) :=
      List.filter_congr (fun a _ => Bool.and_self _)
    rw [hband, hfil.length_eq, List.filter_append]
    have hlast : ([⟨s.nextId, prio, p, os⟩] : List Slot).filter
        (fun sl => !(s.nextId :: s.dead).contains sl.id) = [] := by
      simp [List.contains_cons]
    rw [hlast, List.append_nil]
    have hcg : List.filter (fun sl => !(s.nextId :: s.dead).contains sl.id)
        (slotsOf s ty2) =
        List.filter (fun sl => !s.dead.contains sl.id) (slotsOf s ty2) :=
      List.filter_congr (fun sl hsl => by
        have hlt : sl.id < s.nextId := slotsOf_subset s ty2 hIds sl hsl
        have hb : (sl.id == s.nextId) = false := by
          simpa using Nat.ne_of_lt hlt
        simp only [List.contains_cons, hb, Bool.false_or])
    rw [hcg]
    rfl
  · have hX : lookupA (setA (subscribeSys s ty prio os p).1.disp ty fl)
        ty2 = lookupA s.disp ty2 := by
      rw [lookupA_setA_ne _ ty ty2 _ hty]
      exact subscribeSys_lookup_ne s ty ty2 prio os p hty
    rw [countSys_eq_countD, countSys_eq_countD]
    unfold slotsOf
    dsimp only
    rw [hX]
    cases hd : lookupA s.disp ty2 with
    | none => rfl
    | some w =>
      dsimp only [Option.getD_some]
      apply countD_cons_dead
      intro sl hsl
      obtain ⟨e, he, hk, hv⟩ := lookupA_mem hd
      exact Nat.ne_of_lt (hIds e he sl (hv ▸ hsl))

/-- C7: on a well-formed bus (all recorded ids below `next_id_`, distinct
`handler_types_` keys), subscribing a handler to event type `ty` and then
unsubscribing the returned id restores `handler_count` to its prior value
for every event type; destroying a scoped registration holding a non-zero
id equals an immediate `unsubscribe` of that id; a second `unsubscribe` of
the same id is a no-op on the whole bus state; and a second `disconnect`
of a scoped registration is a no-op as well. -/
theorem C7_subscribe_unsubscribe_roundtrip (s : Sys) (ty prio : Nat)
    (os : Bool) (p : Nat)
    (hIds : ∀ e ∈ s.disp, ∀ sl ∈ e.2, sl.id < s.nextId)
    (hKeys : ∀ e ∈ s.handlerTypes, e.1 < s.nextId)
    (hKnd : (s.handlerTypes.map Prod.fst).Nodup) :
    (∀ ty2, countSys (unsubscribeSys (subscribeSys s ty prio os p).1
      (subscribeSys s ty prio os p).2) ty2 = countSys s ty2) ∧
    (∀ i, i ≠ 0 → connDtor ⟨true, i⟩ s = unsubscribeSys s i) ∧
    (∀ i, unsubscribeSys (unsubscribeSys s i) i = unsubscribeSys s i) ∧
    (∀ c s2, disconnect (disconnect c s2).1 (disconnect c s2).2 =
      disconnect c s2) := by
  refine ⟨count_roundtrip s ty prio os p hIds hKeys, ?_, ?_, ?_⟩
  · intro i hi
    unfold connDtor disconnect
    rw [if_pos ⟨rfl, hi⟩]
  · intro i
    cases h1 : lookupA s.handlerTypes i with
    | none =>
      rw [unsubscribeSys_of_lookup_none s i h1]
      exact unsubscribeSys_of_lookup_none s i h1
    | some ty3 =>
      apply unsubscribeSys_of_lookup_none
      rw [unsubscribeSys_handlerTypes, h1]
      exact lookupA_eraseA_self _ _ hKnd
  · intro c s2
    by_cases hc : c.hasSys = true ∧ c.id ≠ 0
    · have h1 : disconnect c s2 = (Conn.null, unsubscribeSys s2 c.id) := by
        unfold disconnect
        rw [if_pos hc]
      rw [h1]
      unfold disconnect
      rw [if_neg (fun h => by simp [Conn.null] at h)]
    · have h1 : disconnect c s2 = (c, s2) := by
        unfold disconnect
        rw [if_neg hc]
      rw [h1]
      exact h1

/-- The bus used by the C7 witness: one Normal handler subscribed. -/
def c7S : Sys := (runOps initSys [BusOp.sub 0 1 false 0]).1

/-- C7 witness: the round-trip laws applied to a concrete bus holding one
registered handler. -/
theorem C7_subscribe_unsubscribe_roundtrip_witness :
    (∀ ty2, countSys (unsubscribeSys (subscribeSys c7S 0 2 false 0).1
      (subscribeSys c7S 0 2 false 0).2) ty2 = countSys c7S ty2) ∧
    (∀ i, i ≠ 0 → connDtor ⟨true, i⟩ c7S = unsubscribeSys c7S i) ∧
    (∀ i, unsubscribeSys (unsubscribeSys c7S i) i = unsubscribeSys c7S i) ∧
    (∀ c s2, disconnect (disconnect c s2).1 (disconnect c s2).2 =
      disconnect c s2) :=
  C7_subscribe_unsubscribe_roundtrip c7S 0 2 false 0 (by decide) (by decide)
    (by decide)

/-- C3 scenario A: program 0 (the High handler's callback) subscribes a
new Low handler with the empty program 1. -/
def c3Progs : List (List Cmd) := [[Cmd.sub 0 0 false 1], []]

/-- C3 scenario A main program: a High handler (id 1) that subscribes
during dispatch, a pre-existing Low handler (id 2), one publish of `{7}`;
the new handler gets id 3. -/
def c3Main : List Cmd := [Cmd.sub 0 2 false 0, Cmd.sub 0 0 false 1, Cmd.pub 0 7]

/-- C3 scenario B: the handler re-publishes the same event type once
(depth guard `e < 1`) and subscribes the new handler only at depth 1
(guard `1 ≤ e`), so the subscription happens while two frames for the same
(bus, type) pair are on the stack. -/
def c3NestProgs : List (List Cmd) :=
  [[Cmd.pubIf 0 1, Cmd.subIfGe 1 0 1 false 1], []]

/-- C3 scenario B main program. -/
def c3NestMain : List Cmd := [Cmd.sub 0 1 false 0, Cmd.pub 0 0]

/-- C3: `notifyCurrentDispatch` selects exactly one frame — the innermost
frame of the thread's dispatch stack whose bus and event type match — and
the newly subscribed handler is invoked once on that frame's event, before
the outer iteration reaches any not-yet-visited handler.  The first
conjunct states the selection property for every stack; the concrete runs
show (scenario A, both dispatcher variants) the new handler 3 firing on
the current event exactly once, after its subscriber (id 1) and before the
not-yet-visited handler 2, and (scenario B, both variants) a subscription
made while two frames for the same (bus, type) pair are nested firing the
new handler 2 exactly once, with the innermost frame's event value 1
rather than the outer frame's 0. -/
theorem C3_subscribe_during_dispatch_innermost (stack : List FrameI)
    (sysR ty : Nat) (f : FrameI)
    (h : notifySelect stack sysR ty = some f) :
    (f.sysRef = sysR ∧ f.ty = ty ∧
      ∃ pre post, stack = pre ++ f :: post ∧
        ∀ g ∈ pre, ¬ (g.sysRef = sysR ∧ g.ty = ty)) ∧
    (runN .td c3Progs 40 (initCfg c3Main)).trace = [(1, 7), (3, 7), (2, 7)] ∧
    (runN .es c3Progs 40 (initCfg c3Main)).trace = [(1, 7), (3, 7), (2, 7)] ∧
    (runN .td c3NestProgs 40 (initCfg c3NestMain)).trace =
      [(1, 0), (1, 1), (2, 1)] ∧
    (runN .es c3NestProgs 40 (initCfg c3NestMain)).trace =
      [(1, 0), (1, 1), (2, 1)] := by
  refine ⟨?_, by decide, by decide, by decide, by decide⟩
  induction stack with
  | nil => simp [notifySelect] at h
  | cons g rest ih =>
    unfold notifySelect at h
    rw [List.find?_cons] at h
    cases hp : (g.sysRef == sysR && g.ty == ty) with
    | true =>
      rw [hp] at h
      have hf : f = g := (Option.some.inj h).symm
      have hok := Bool.and_eq_true_iff.mp hp
      subst hf
      exact ⟨by simpa using hok.1, by simpa using hok.2,
        [], rest, rfl, fun g hg => absurd hg (List.not_mem_nil g)⟩
    | false =>
      rw [hp] at h
      obtain ⟨h1, h2, pre, post, heq, hpre⟩ := ih h
      refine ⟨h1, h2, g :: pre, post, by rw [heq]; rfl, ?_⟩
      intro g2 hg2
      rcases List.mem_cons.mp hg2 with hg | hg
      · subst hg
        intro ⟨ha, hb⟩
        rw [ha, hb] at hp
        simp at hp
      · exact hpre g2 hg

/-- C3 witness: the selection property applied to a singleton stack whose
only frame matches. -/
theorem C3_subscribe_during_dispatch_innermost_witness :
    ((⟨0, 0, 5⟩ : FrameI).sysRef = 0 ∧ (⟨0, 0, 5⟩ : FrameI).ty = 0 ∧
      ∃ pre post, [(⟨0, 0, 5⟩ : FrameI)] = pre ++ (⟨0, 0, 5⟩ : FrameI) :: post ∧
        ∀ g ∈ pre, ¬ (g.sysRef = 0 ∧ g.ty = 0)) ∧
    (runN .td c3Progs 40 (initCfg c3Main)).trace = [(1, 7), (3, 7), (2, 7)] ∧
    (runN .es c3Progs 40 (initCfg c3Main)).trace = [(1, 7), (3, 7), (2, 7)] ∧
    (runN .td c3NestProgs 40 (initCfg c3NestMain)).trace =
      [(1, 0), (1, 1), (2, 1)] ∧
    (runN .es c3NestProgs 40 (initCfg c3NestMain)).trace =
      [(1, 0), (1, 1), (2, 1)] :=
  C3_subscribe_during_dispatch_innermost [⟨0, 0, 5⟩] 0 0 ⟨0, 0, 5⟩ rfl

/-- `contains` agrees with list membership on `Nat`. -/
theorem contains_true_iff (l : List Nat) (a : Nat) :
    l.contains a = true ↔ a ∈ l := List.elem_iff

/-- `unsubscribe` never reactivates a handler: the dead set only grows. -/
theorem unsubscribeSys_dead_mono (s : Sys) (id j : Nat) (hj : j ∈ s.dead) :
    j ∈ (unsubscribeSys s id).dead := by
  unfold unsubscribeSys removeD
  split
  · exact hj
  · dsimp only
    split
    · exact hj
    · dsimp only
      split
      · exact List.mem_cons_of_mem _ hj
      · exact hj

/-- `getDispatcher`'s insert-if-absent never touches the dead set. -/
theorem ensureDisp_dead (s : Sys) (ty : Nat) :
    (ensureDisp s ty).dead = s.dead := by
  unfold ensureDisp
  split <;> rfl

/-- No machine step removes an id from the dead set: a deactivated slot
stays deactivated (the `Active` flag only ever goes from true to false). -/
theorem step_dead_mono (v : Variant) (progs : List (List Cmd)) (cfg : Cfg)
    (j : Nat) (hj : j ∈ cfg.sys.dead) : j ∈ (step v progs cfg).sys.dead := by
  unfold step
  dsimp only
  repeat' split
  all_goals try dsimp only
  all_goals
    first
    | exact hj
    | exact List.mem_cons_of_mem _ hj
    | exact unsubscribeSys_dead_mono _ _ _ hj
    | (rw [ensureDisp_dead]; exact hj)

/-- One machine step appends at most one invocation to the trace, and any
invocation it appends is of a handler whose `Active` flag was true (its id
was not in the dead set) when the step ran. -/
theorem step_trace (v : Variant) (progs : List (List Cmd)) (cfg : Cfg) :
    ∃ δ, (step v progs cfg).trace = cfg.trace ++ δ ∧
      ∀ x ∈ δ, x.1 ∉ cfg.sys.dead := by
  unfold step
  dsimp only
  repeat' split
  all_goals
    first
    | exact ⟨[], (List.append_nil _).symm,
        fun x hx => absurd hx (List.not_mem_nil _)⟩
    | (refine ⟨[_], rfl, ?_⟩
       intro x hx hin
       rw [List.mem_singleton] at hx
       subst hx
       exact absurd ((contains_true_iff _ _).mpr hin) (by assumption))

/-- Trace growth over a whole run: every invocation recorded after a
configuration is of a handler that was still active in that
configuration. -/
theorem runN_trace_mono (v : Variant) (progs : List (List Cmd)) (n : Nat) :
    ∀ cfg : Cfg, ∃ δ, (runN v progs n cfg).trace = cfg.trace ++ δ ∧
      ∀ x ∈ δ, x.1 ∉ cfg.sys.dead := by
  induction n with
  | zero =>
    intro cfg
    exact ⟨[], (List.append_nil _).symm,
      fun x hx => absurd hx (List.not_mem_nil _)⟩
  | succ n ih =>
    intro cfg
    obtain ⟨δ1, h1, h2⟩ := step_trace v progs cfg
    obtain ⟨δ2, h3, h4⟩ := ih (step v progs cfg)
    refine ⟨δ1 ++ δ2, ?_, ?_⟩
    · show (runN v progs n (step v progs cfg)).trace = _
      rw [h3, h1, List.append_assoc]
    · intro x hx
      rcases List.mem_append.mp hx with hx | hx
      · exact h2 x hx
      · intro hin
        exact h4 x hx (step_dead_mono v progs cfg x.1 hin)

/-- C5 scenario: a Low handler (id 1, empty body) and a High handler
(id 2) whose callback unsubscribes id 1 during the dispatch. -/
def c5Progs : List (List Cmd) := [[], [Cmd.unsub 1]]

/-- C5 scenario main program. -/
def c5Main : List Cmd := [Cmd.sub 0 0 false 0, Cmd.sub 0 2 false 1, Cmd.pub 0 0]

/-- C5 self-unsubscribe scenario: handler 1 unsubscribes itself inside its
own callback; the event is then published a second time. -/
def c5SelfProgs : List (List Cmd) := [[Cmd.unsub 1]]

/-- C5 self-unsubscribe main program. -/
def c5SelfMain : List Cmd := [Cmd.sub 0 1 false 0, Cmd.pub 0 0, Cmd.pub 0 0]

/-- C5: once a handler's `Active` flag is false (its id is in the dead
set), no continuation of the execution ever invokes it again — the
iteration re-reads `active` just before each invocation, the flag never
returns to true, and this holds for the remainder of the current delivery
and for all subsequent deliveries, in both dispatcher variants (first
conjunct).  Concretely (TDispatcher runs): when the High handler 2
unsubscribes the not-yet-reached Low handler 1 mid-delivery, handler 1 is
not invoked at all and the bus ends with one active handler; a handler
that unsubscribes itself completes its own callback normally (no
exception, its invocation is recorded) and is not invoked by the second
publish. -/
theorem C5_unsubscribed_never_invoked_again (v : Variant)
    (progs : List (List Cmd)) (cfg : Cfg) (j n : Nat)
    (hj : j ∈ cfg.sys.dead) :
    (∃ δ, (runN v progs n cfg).trace = cfg.trace ++ δ ∧
      ∀ x ∈ δ, x.1 ≠ j) ∧
    (runN .td c5Progs 30 (initCfg c5Main)).trace = [(2, 0)] ∧
    countSys (runN .td c5Progs 30 (initCfg c5Main)).sys 0 = 1 ∧
    (runN .td c5SelfProgs 30 (initCfg c5SelfMain)).trace = [(1, 0)] ∧
    (runN .td c5SelfProgs 30 (initCfg c5SelfMain)).exc = false ∧
    countSys (runN .td c5SelfProgs 30 (initCfg c5SelfMain)).sys 0 = 0 := by
  refine ⟨?_, by decide, by decide, by decide, by decide, by decide⟩
  obtain ⟨δ, h1, h2⟩ := runN_trace_mono v progs n cfg
  exact ⟨δ, h1, fun x hx hxj => h2 x hx (hxj ▸ hj)⟩

/-- C5 witness: the universal part applied to a configuration whose dead
set already contains id 7. -/
theorem C5_unsubscribed_never_invoked_again_witness :
    (∃ δ, (runN .td [[]] 5 ⟨⟨[], [], 1, [7]⟩, [], false, []⟩).trace =
      ([] : List (Nat × Nat)) ++ δ ∧ ∀ x ∈ δ, x.1 ≠ 7) ∧
    (runN .td c5Progs 30 (initCfg c5Main)).trace = [(2, 0)] ∧
    countSys (runN .td c5Progs 30 (initCfg c5Main)).sys 0 = 1 ∧
    (runN .td c5SelfProgs 30 (initCfg c5SelfMain)).trace = [(1, 0)] ∧
    (runN .td c5SelfProgs 30 (initCfg c5SelfMain)).exc = false ∧
    countSys (runN .td c5SelfProgs 30 (initCfg c5SelfMain)).sys 0 = 0 :=
  C5_unsubscribed_never_invoked_again .td [[]]
    ⟨⟨[], [], 1, [7]⟩, [], false, []⟩ 7 5 (by decide)

/-- Full order on slots as the stable sort arranges them in a bus-built
list: strictly higher priority first; within one priority, subscription
order, which for bus-issued ids is ascending id order. -/
def slotR (a b : Slot) : Prop :=
  b.prio < a.prio ∨ (a.prio = b.prio ∧ a.id < b.id)

/-- Inserting in front of a list it dominates. -/
theorem orderedInsert_front (a : Slot) (t : List Slot)
    (h : ∀ y ∈ t, slotGE a y) : List.orderedInsert slotGE a t = a :: t := by
  cases t with
  | nil => rfl
  | cons y ys =>
    unfold List.orderedInsert
    rw [if_pos (h y (List.mem_cons_self y ys))]

/-- The head of a non-empty `dropWhile` fails the predicate. -/
theorem dropWhile_head_false {α : Type} (p : α → Bool) (d : α) (ds : List α) :
    ∀ l : List α, l.dropWhile p = d :: ds → p d = false := by
  intro l
  induction l with
  | nil => intro h; cases h
  | cons a t ih =>
    intro h
    rw [List.dropWhile_cons] at h
    by_cases hp : p a = true
    · rw [if_pos hp] at h
      exact ih h
    · rw [if_neg hp] at h
      cases h
      simpa using hp

/-- What `stable_sort` does to a sorted list with one element appended at
the end (the shape `TDispatcher::Subscribe` produces): the new element
moves left past the strictly lower-priority suffix and lands right after
the last element of priority at least its own. -/
theorem sortSlots_append_single (x : Slot) :
    ∀ l : List Slot, l.Pairwise slotGE →
    sortSlots (l ++ [x]) =
      l.takeWhile (fun y => decide (x.prio ≤ y.prio)) ++
        x :: l.dropWhile (fun y => decide (x.prio ≤ y.prio)) := by
  intro l
  induction l with
  | nil => intro _; rfl
  | cons a l' ih =>
    intro hl
    have hl' : l'.Pairwise slotGE := hl.of_cons
    have hrel : ∀ y ∈ l', slotGE a y :=
      fun y hy => List.rel_of_pairwise_cons hl hy
    have hrec : sortSlots ((a :: l') ++ [x]) =
        List.orderedInsert slotGE a (sortSlots (l' ++ [x])) := rfl
    rw [hrec, ih hl', List.takeWhile_cons, List.dropWhile_cons]
    by_cases hax : x.prio ≤ a.prio
    · rw [if_pos (show decide (x.prio ≤ a.prio) = true by simpa using hax),
        if_pos (show decide (x.prio ≤ a.prio) = true by simpa using hax)]
      cases htw : l'.takeWhile (fun y => decide (x.prio ≤ y.prio)) with
      | nil =>
        rw [List.nil_append]
        exact orderedInsert_front a _
          (by
            intro y hy
            rcases List.mem_cons.mp hy with hy | hy
            · subst hy; exact hax
            · exact hrel y ((List.dropWhile_sublist _).subset hy))
      | cons t ts =>
        have ht : t ∈ l'.takeWhile (fun y => decide (x.prio ≤ y.prio)) := by
          rw [htw]
          exact List.mem_cons_self t ts
        have hat : slotGE a t :=
          hrel t ((List.takeWhile_sublist _).subset ht)
        show (if slotGE a t then a :: t :: (ts ++ x :: l'.dropWhile
            (fun y => decide (x.prio ≤ y.prio))) else t ::
            List.orderedInsert slotGE a (ts ++ x :: l'.dropWhile
            (fun y => decide (x.prio ≤ y.prio)))) = _
        rw [if_pos hat]
        rfl
    · rw [if_neg (show ¬ decide (x.prio ≤ a.prio) = true by simpa using hax),
        if_neg (show ¬ decide (x.prio ≤ a.prio) = true by simpa using hax)]
      have hlow : ∀ y ∈ l', ¬ (x.prio ≤ y.prio) := by
        intro y hy hc
        exact hax (le_trans hc (hrel y hy))
      have htw : l'.takeWhile (fun y => decide (x.prio ≤ y.prio)) = [] := by
        cases l'' : l' with
        | nil => rfl
        | cons b bs =>
          rw [List.takeWhile_cons, if_neg]
          simpa using hlow b (l'' ▸ List.mem_cons_self b bs)
      have hdw : l'.dropWhile (fun y => decide (x.prio ≤ y.prio)) = l' := by
        cases l'' : l' with
        | nil => rfl
        | cons b bs =>
          rw [List.dropWhile_cons, if_neg]
          simpa using hlow b (l'' ▸ List.mem_cons_self b bs)
      rw [htw, hdw, List.nil_append, List.nil_append]
      show List.orderedInsert slotGE a (x :: l') = x :: a :: l'
      unfold List.orderedInsert
      rw [if_neg (show ¬ slotGE a x from hax)]
      rw [orderedInsert_front a l' hrel]

/-- Inserting a freshly issued slot (id larger than everything present)
with the stable sort preserves the bus ordering invariant: priorities
descending, ids ascending within one priority. -/
theorem sortSlots_pairwise_step (l : List Slot) (x : Slot)
    (hl : l.Pairwise slotR) (hf : ∀ s ∈ l, s.id < x.id) :
    (sortSlots (l ++ [x])).Pairwise slotR := by
  have hge : l.Pairwise slotGE := hl.imp (fun h => by
    rcases h with h | ⟨he, _⟩
    · exact le_of_lt h
    · exact le_of_eq he.symm)
  rw [sortSlots_append_single x l hge]
  have hsplit : l.takeWhile (fun y => decide (x.prio ≤ y.prio)) ++
      l.dropWhile (fun y => decide (x.prio ≤ y.prio)) = l :=
    List.takeWhile_append_dropWhile _ _
  have hlR : (l.takeWhile (fun y => decide (x.prio ≤ y.prio)) ++
      l.dropWhile (fun y => decide (x.prio ≤ y.prio))).Pairwise slotR := by
    rw [hsplit]
    exact hl
  rw [List.pairwise_append] at hlR
  obtain ⟨htwR, hdwR, hcross⟩ := hlR
  rw [List.pairwise_append]
  refine ⟨htwR, ?_, ?_⟩
  · rw [List.pairwise_cons]
    refine ⟨?_, hdwR⟩
    intro b hb
    refine Or.inl ?_
    cases hdw : l.dropWhile (fun y => decide (x.prio ≤ y.prio)) with
    | nil =>
      rw [hdw] at hb
      cases hb
    | cons d ds =>
      rw [hdw] at hb
      have hd : decide (x.prio ≤ d.prio) = false :=
        dropWhile_head_false _ d ds l hdw
      have hdlt : d.prio < x.prio := by
        have := of_decide_eq_false hd
        omega
      rcases List.mem_cons.mp hb with hb | hb
      · subst hb
        exact hdlt
      · have hgedw : (l.dropWhile
            (fun y => decide (x.prio ≤ y.prio))).Pairwise slotGE :=
          hge.sublist (List.dropWhile_sublist _)
        rw [hdw] at hgedw
        exact lt_of_le_of_lt (List.rel_of_pairwise_cons hgedw hb) hdlt
  · intro a ha b hb
    rcases List.mem_cons.mp hb with hb | hb
    · rw [hb]
      have hax : x.prio ≤ a.prio := by
        simpa using List.mem_takeWhile_imp ha
      rcases lt_or_eq_of_le hax with hlt | heq
      · exact Or.inl hlt
      · exact Or.inr ⟨heq.symm,
          hf a ((List.takeWhile_sublist _).subset ha)⟩
    · exact hcross a ha b hb

/-- Membership is invariant under the stable sort. -/
theorem mem_sortSlots {s : Slot} {l : List Slot} : s ∈ sortSlots l ↔ s ∈ l :=
  List.mem_insertionSort slotGE

/-- Top-level program that subscribes one plain handler per priority in
the list (all with the empty callback program 0), in order. -/
def subCmds (prios : List Nat) : List Cmd :=
  prios.map (fun pr => Cmd.sub 0 pr false 0)

/-- The slot list an at-rest subscription sequence builds: repeated
append-then-stable-sort, ids issued consecutively from `k`. -/
def buildSlots : List Nat → List Slot → Nat → List Slot
  | [], l, _ => l
  | pr :: rest, l, k =>
    buildSlots rest (sortSlots (l ++ [⟨k, pr, 0, false⟩])) (k + 1)

/-- Running the subscription prefix of a top-level program: one machine
step per `subscribe` (the dispatch stack is empty, so
`notifyCurrentDispatch` does nothing). -/
theorem runN_subs (v : Variant) (progs : List (List Cmd)) :
    ∀ (prios : List Nat) (sys : Sys) (tailCmds : List Cmd)
      (tr : List (Nat × Nat)),
    runN v progs prios.length
      ⟨sys, [K.prog 0 (subCmds prios ++ tailCmds)], false, tr⟩ =
      ⟨prios.foldl (fun s pr => (subscribeSys s 0 pr false 0).1) sys,
        [K.prog 0 tailCmds], false, tr⟩ := by
  intro prios
  induction prios with
  | nil => intro sys tailCmds tr; rfl
  | cons pr rest ih =>
    intro sys tailCmds tr
    have hstep : step v progs
        ⟨sys, [K.prog 0 (subCmds (pr :: rest) ++ tailCmds)], false, tr⟩ =
        ⟨(subscribeSys sys 0 pr false 0).1,
          [K.prog 0 (subCmds rest ++ tailCmds)], false, tr⟩ := rfl
    show runN v progs rest.length (step v progs
      ⟨sys, [K.prog 0 (subCmds (pr :: rest) ++ tailCmds)], false, tr⟩) = _
    rw [hstep]
    exact ih _ _ _

/-- The bus state after folding the at-rest subscriptions over a state
whose only dispatcher is `(0, l)`: the slot list is `buildSlots`, the id
counter advanced by the number of subscriptions, nothing deactivated. -/
theorem foldSubs_char : ∀ (prios : List Nat) (l : List Slot)
    (ht : List (Nat × Nat)) (k : Nat),
    ∃ ht2, prios.foldl (fun s pr => (subscribeSys s 0 pr false 0).1)
      ⟨[(0, l)], ht, k, []⟩ =
      ⟨[(0, buildSlots prios l k)], ht2, k + prios.length, []⟩ := by
  intro prios
  induction prios with
  | nil =>
    intro l ht k
    exact ⟨ht, by simp [buildSlots]⟩
  | cons pr rest ih =>
    intro l ht k
    have hone : (subscribeSys (⟨[(0, l)], ht, k, []⟩ : Sys) 0 pr false 0).1 =
        ⟨[(0, sortSlots (l ++ [⟨k, pr, 0, false⟩]))], ht ++ [(k, 0)],
          k + 1, []⟩ := rfl
    rw [List.foldl_cons, hone]
    obtain ⟨ht2, h⟩ :=
      ih (sortSlots (l ++ [⟨k, pr, 0, false⟩])) (ht ++ [(k, 0)]) (k + 1)
    refine ⟨ht2, ?_⟩
    rw [h, show (k + 1) + rest.length = k + (pr :: rest).length from by
      simp [List.length_cons]
      omega]
    rfl

/-- Ordering invariant of the built slot list: priorities descending, ids
ascending within one priority; all ids below the advanced counter. -/
theorem buildSlots_pairwise : ∀ (prios : List Nat) (l : List Slot) (k : Nat),
    l.Pairwise slotR → (∀ s ∈ l, s.id < k) →
    (buildSlots prios l k).Pairwise slotR ∧
    (∀ s ∈ buildSlots prios l k, s.id < k + prios.length) := by
  intro prios
  induction prios with
  | nil =>
    intro l k h1 h2
    exact ⟨h1, by simpa using h2⟩
  | cons pr rest ih =>
    intro l k h1 h2
    have hstep := sortSlots_pairwise_step l ⟨k, pr, 0, false⟩ h1 h2
    have hmem : ∀ s ∈ sortSlots (l ++ [⟨k, pr, 0, false⟩]), s.id < k + 1 := by
      intro s hs
      rcases List.mem_append.mp (mem_sortSlots.mp hs) with h | h
      · exact Nat.lt_succ_of_lt (h2 s h)
      · rw [List.mem_singleton] at h
        subst h
        exact Nat.lt_succ_self k
    have hrec := ih (sortSlots (l ++ [⟨k, pr, 0, false⟩])) (k + 1) hstep hmem
    refine ⟨hrec.1, ?_⟩
    intro s hs
    have := hrec.2 s hs
    simp only [List.length_cons]
    omega

/-- Every slot of the built list satisfies a property that holds of the
starting slots and of each inserted slot `⟨k + i, prios[i], 0, false⟩`. -/
theorem buildSlots_forall (P : Slot → Prop) :
    ∀ (prios : List Nat) (l : List Slot) (k : Nat),
    (∀ s ∈ l, P s) →
    (∀ i, i < prios.length → P ⟨k + i, prios.getD i 0, 0, false⟩) →
    ∀ s ∈ buildSlots prios l k, P s := by
  intro prios
  induction prios with
  | nil =>
    intro l k hl _ s hs
    exact hl s hs
  | cons pr rest ih =>
    intro l k hl hP s hs
    refine ih _ (k + 1) ?_ ?_ s hs
    · intro s2 hs2
      rcases List.mem_append.mp (mem_sortSlots.mp hs2) with h | h
      · exact hl s2 h
      · rw [List.mem_singleton] at h
        subst h
        simpa using hP 0 (by simp)
    · intro i hi
      have hnext := hP (i + 1) (by simpa using Nat.succ_lt_succ hi)
      have harith : k + (i + 1) = (k + 1) + i := by omega
      have hget : (pr :: rest).getD (i + 1) 0 = rest.getD i 0 := rfl
      rw [harith, hget] at hnext
      exact hnext

/-- The ids of the built slot list are a permutation of the starting ids
followed by the consecutively issued ids. -/
theorem buildSlots_ids_perm : ∀ (prios : List Nat) (l : List Slot) (k : Nat),
    List.Perm ((buildSlots prios l k).map (fun s => s.id))
      (l.map (fun s => s.id) ++ List.range' k prios.length) := by
  intro prios
  induction prios with
  | nil =>
    intro l k
    simp [buildSlots]
  | cons pr rest ih =>
    intro l k
    have h1 := ih (sortSlots (l ++ [⟨k, pr, 0, false⟩])) (k + 1)
    have h2 : List.Perm
        ((sortSlots (l ++ [⟨k, pr, 0, false⟩])).map (fun s => s.id))
        ((l ++ [(⟨k, pr, 0, false⟩ : Slot)]).map (fun s => s.id)) :=
      (List.perm_insertionSort slotGE _).map _
    have h3 := h1.trans (h2.append_right (List.range' (k + 1) rest.length))
    show List.Perm ((buildSlots rest
      (sortSlots (l ++ [⟨k, pr, 0, false⟩])) (k + 1)).map (fun s => s.id)) _
    rw [List.map_append] at h3
    rw [show List.range' k (pr :: rest).length =
      k :: List.range' (k + 1) rest.length from by
        rw [List.length_cons, List.range'_succ]]
    refine h3.trans ?_
    rw [List.append_assoc]
    rfl

/-- Running fuel splits into sequential runs. -/
theorem runN_add (v : Variant) (progs : List (List Cmd)) :
    ∀ (a b : Nat) (cfg : Cfg),
    runN v progs (a + b) cfg = runN v progs b (runN v progs a cfg) := by
  intro a
  induction a with
  | zero =>
    intro b cfg
    rw [Nat.zero_add]
    rfl
  | succ a ih =>
    intro b cfg
    rw [Nat.succ_add]
    show runN v progs (a + b) (step v progs cfg) = _
    rw [ih b (step v progs cfg)]
    rfl

/-- The delivery loop over a snapshot of plain active handlers with empty
callback bodies: two machine steps per slot, one invocation each, in
snapshot order; the bus state is untouched. -/
theorem runN_loop_pure (v : Variant) (progs : List (List Cmd))
    (hp : progOf progs 0 = []) (ty ev : Nat) :
    ∀ (snap : List Slot) (sys : Sys) (ks : List K) (tr : List (Nat × Nat)),
    (∀ s ∈ snap, s.oneShot = false ∧ s.prog = 0 ∧
      sys.dead.contains s.id = false) →
    runN v progs (2 * snap.length)
      ⟨sys, K.loop ty ev snap false none :: ks, false, tr⟩ =
      ⟨sys, K.loop ty ev [] false none :: ks, false,
        tr ++ snap.map (fun s => (s.id, ev))⟩ := by
  intro snap
  induction snap with
  | nil =>
    intro sys ks tr _
    simp [runN]
  | cons s rest ih =>
    intro sys ks tr hall
    obtain ⟨hos, hprog, hdead⟩ := hall s (List.mem_cons_self s rest)
    have hstep1 : step v progs
        ⟨sys, K.loop ty ev (s :: rest) false none :: ks, false, tr⟩ =
        ⟨sys, K.prog ev [] :: K.loop ty ev rest false none :: ks, false,
          tr ++ [(s.id, ev)]⟩ := by
      cases v with
      | td =>
        unfold step
        dsimp only
        rw [hos, hdead, hprog, hp]
        rfl
      | es =>
        unfold step
        dsimp only
        rw [hos, hdead, hprog, hp]
        rfl
    have hstep2 : step v progs
        ⟨sys, K.prog ev [] :: K.loop ty ev rest false none :: ks, false,
          tr ++ [(s.id, ev)]⟩ =
        ⟨sys, K.loop ty ev rest false none :: ks, false,
          tr ++ [(s.id, ev)]⟩ := by
      cases v <;> rfl
    rw [show (s :: rest).length = rest.length + 1 from rfl, Nat.mul_succ]
    rw [show 2 * rest.length + 2 = 2 + 2 * rest.length from by omega]
    rw [runN_add v progs 2 (2 * rest.length)]
    have hrun2 : runN v progs 2
        ⟨sys, K.loop ty ev (s :: rest) false none :: ks, false, tr⟩ =
        ⟨sys, K.loop ty ev rest false none :: ks, false,
          tr ++ [(s.id, ev)]⟩ := by
      show step v progs (step v progs _) = _
      rw [hstep1, hstep2]
    rw [hrun2, ih sys ks (tr ++ [(s.id, ev)])
      (fun s2 hs2 => hall s2 (List.mem_cons_of_mem s hs2))]
    rw [List.map_cons, List.append_assoc]
    rfl

/-- The built slot list has one slot per subscription. -/
theorem buildSlots_length : ∀ (prios : List Nat) (l : List Slot) (k : Nat),
    (buildSlots prios l k).length = l.length + prios.length := by
  intro prios
  induction prios with
  | nil =>
    intro l k
    simp [buildSlots]
  | cons pr rest ih =>
    intro l k
    show (buildSlots rest (sortSlots (l ++ [⟨k, pr, 0, false⟩])) (k + 1)).length = _
    rw [ih]
    unfold sortSlots
    rw [List.length_insertionSort, List.length_append]
    simp only [List.length_singleton, List.length_cons, List.length_nil]
    omega

/-- The C4 scenario: subscribe one plain handler per entry of `prios` (in
list order, empty callbacks), then publish event `{0}` once. -/
def c4Cfg (prios : List Nat) : Cfg := initCfg (subCmds prios ++ [Cmd.pub 0 0])

/-- Complete evaluation of the C4 scenario: the run terminates without
exception and its trace is exactly the stably sorted slot list, one
invocation per subscribed handler, each on event value 0. -/
theorem c4_run (v : Variant) (prios : List Nat) :
    ∃ SF : Sys, runN v [[]] (3 * prios.length + 4) (c4Cfg prios) =
      ⟨SF, [], false, (buildSlots prios [] 1).map (fun s => (s.id, 0))⟩ := by
  cases prios with
  | nil =>
    refine ⟨⟨[(0, [])], [], 1, []⟩, ?_⟩
    cases v <;> decide
  | cons pr rest =>
    obtain ⟨ht2, h2⟩ :=
      foldSubs_char rest (sortSlots ([] ++ [⟨1, pr, 0, false⟩])) [(1, 0)] 2
    have hfold : (pr :: rest).foldl
        (fun s pr2 => (subscribeSys s 0 pr2 false 0).1) initSys =
        ⟨[(0, buildSlots (pr :: rest) [] 1)], ht2, 2 + rest.length, []⟩ := by
      rw [List.foldl_cons]
      have hfirst : (subscribeSys initSys 0 pr false 0).1 =
          (⟨[(0, sortSlots ([] ++ [⟨1, pr, 0, false⟩]))], [(1, 0)], 2, []⟩
            : Sys) := rfl
      rw [hfirst, h2]
      rfl
    have h1 := runN_subs v [[]] (pr :: rest) initSys [Cmd.pub 0 0] []
    rw [show 3 * (pr :: rest).length + 4 =
      (pr :: rest).length + (1 + (2 * (pr :: rest).length + 3)) from by omega]
    rw [runN_add]
    rw [show c4Cfg (pr :: rest) = ⟨initSys,
      [K.prog 0 (subCmds (pr :: rest) ++ [Cmd.pub 0 0])], false, []⟩ from rfl]
    rw [h1, hfold]
    rw [runN_add v [[]] 1 (2 * (pr :: rest).length + 3)]
    have hpub : runN v [[]] 1
        ⟨⟨[(0, buildSlots (pr :: rest) [] 1)], ht2, 2 + rest.length, []⟩,
          [K.prog 0 [Cmd.pub 0 0]], false, []⟩ =
        ⟨⟨[(0, buildSlots (pr :: rest) [] 1)], ht2, 2 + rest.length, []⟩,
          [K.loop 0 0 (buildSlots (pr :: rest) [] 1) false none,
            K.dframe 0 0, K.prog 0 []], false, []⟩ := rfl
    rw [hpub]
    have hlen : (buildSlots (pr :: rest) [] 1).length = (pr :: rest).length := by
      rw [buildSlots_length, List.length_nil, Nat.zero_add]
    have hconds : ∀ s ∈ buildSlots (pr :: rest) [] 1,
        s.oneShot = false ∧ s.prog = 0 ∧
        (⟨[(0, buildSlots (pr :: rest) [] 1)], ht2, 2 + rest.length, []⟩
          : Sys).dead.contains s.id = false := by
      intro s hs
      have hP := buildSlots_forall
        (fun s => s.oneShot = false ∧ s.prog = 0) (pr :: rest) [] 1
        (fun s h => absurd h (List.not_mem_nil s))
        (fun i _ => ⟨rfl, rfl⟩) s hs
      exact ⟨hP.1, hP.2, rfl⟩
    have hloop := runN_loop_pure v [[]] rfl 0 0
      (buildSlots (pr :: rest) [] 1)
      ⟨[(0, buildSlots (pr :: rest) [] 1)], ht2, 2 + rest.length, []⟩
      [K.dframe 0 0, K.prog 0 []] [] hconds
    rw [show 2 * (pr :: rest).length + 3 =
      2 * (buildSlots (pr :: rest) [] 1).length + 3 from by rw [hlen]]
    rw [runN_add v [[]] (2 * (buildSlots (pr :: rest) [] 1).length) 3]
    rw [hloop]
    have hfin : runN v [[]] 3
        ⟨⟨[(0, buildSlots (pr :: rest) [] 1)], ht2, 2 + rest.length, []⟩,
          [K.loop 0 0 [] false none, K.dframe 0 0, K.prog 0 []], false,
          [] ++ (buildSlots (pr :: rest) [] 1).map (fun s => (s.id, 0))⟩ =
        ⟨⟨[(0, buildSlots (pr :: rest) [] 1)], ht2, 2 + rest.length, []⟩,
          [], false,
          [] ++ (buildSlots (pr :: rest) [] 1).map (fun s => (s.id, 0))⟩ := rfl
    rw [hfin]
    refine ⟨⟨[(0, buildSlots (pr :: rest) [] 1)], ht2, 2 + rest.length, []⟩, ?_⟩
    rw [List.nil_append]

/-- C4: for every single publish, every subscribed handler is invoked
exactly once (the invoked ids are a permutation of the issued ids 1..n, so
only active handlers run and none is skipped or repeated), the invocation
sequence is ordered by strictly descending priority and, within one
priority class, by ascending subscription order (ascending bus-issued id),
each invocation observes the published event, the run completes without
exception — and logical removal does not reorder the surviving slots:
filtering any slot list that satisfies the stable-sort order by liveness
preserves that order. Holds for both dispatcher variants. -/
theorem C4_publish_in_priority_then_subscription_order
    (v : Variant) (prios : List Nat) :
    (runN v [[]] (3 * prios.length + 4) (c4Cfg prios)).exc = false ∧
    (runN v [[]] (3 * prios.length + 4) (c4Cfg prios)).conts = [] ∧
    List.Perm
      ((runN v [[]] (3 * prios.length + 4) (c4Cfg prios)).trace.map Prod.fst)
      (List.range' 1 prios.length) ∧
    (runN v [[]] (3 * prios.length + 4) (c4Cfg prios)).trace.Pairwise
      (fun a b => prios.getD (b.1 - 1) 0 ≤ prios.getD (a.1 - 1) 0 ∧
        (prios.getD (a.1 - 1) 0 = prios.getD (b.1 - 1) 0 → a.1 < b.1)) ∧
    (∀ x ∈ (runN v [[]] (3 * prios.length + 4) (c4Cfg prios)).trace,
      x.2 = 0) ∧
    (∀ (l : List Slot) (dead : List Nat), l.Pairwise slotR →
      (l.filter (fun s => !(dead.contains s.id))).Pairwise slotR) := by
  obtain ⟨SF, hrun⟩ := c4_run v prios
  rw [hrun]
  have hprio : ∀ s ∈ buildSlots prios [] 1,
      s.prio = prios.getD (s.id - 1) 0 := by
    refine buildSlots_forall _ prios [] 1
      (fun s h => absurd h (List.not_mem_nil s)) ?_
    intro i _
    show prios.getD i 0 = prios.getD (1 + i - 1) 0
    rw [show 1 + i - 1 = i from by omega]
  have hpw := (buildSlots_pairwise prios [] 1 List.Pairwise.nil
    (fun s h => absurd h (List.not_mem_nil s))).1
  have hpw2 : (buildSlots prios [] 1).Pairwise (fun s t =>
      prios.getD (t.id - 1) 0 ≤ prios.getD (s.id - 1) 0 ∧
      (prios.getD (s.id - 1) 0 = prios.getD (t.id - 1) 0 → s.id < t.id)) := by
    refine hpw.imp_of_mem ?_
    intro a b ha hb hR
    rw [← hprio a ha, ← hprio b hb]
    rcases hR with h | ⟨h1, h2⟩
    · exact ⟨Nat.le_of_lt h, fun he => absurd he (by omega)⟩
    · exact ⟨Nat.le_of_eq h1.symm, fun _ => h2⟩
  have hperm := buildSlots_ids_perm prios [] 1
  rw [List.map_nil, List.nil_append] at hperm
  refine ⟨rfl, rfl, ?_, ?_, ?_, ?_⟩
  · show List.Perm
      (((buildSlots prios [] 1).map (fun s => (s.id, 0))).map Prod.fst)
      (List.range' 1 prios.length)
    rw [List.map_map]
    exact hperm
  · show ((buildSlots prios [] 1).map (fun s => (s.id, 0))).Pairwise _
    exact List.pairwise_map.mpr (hpw2.imp (fun h => h))
  · intro x hx
    obtain ⟨s, hs, rfl⟩ := List.mem_map.mp hx
    rfl
  · intro l dead h
    exact List.Pairwise.sublist (List.filter_sublist _) h

end EventSys
